import Mathlib

/-
Verification of the AdvancedVector repository (src/advanced-vector/vector.h):
a shallow embedding of the RawMemory and Vector templates, followed by
theorems about the embedded operations.

Modelling conventions:
- a raw buffer pointer is modelled as an Option Nat: none is nullptr, some b
  is a pointer to the allocated block with identity b;
- a Vector value is modelled by its capacity (the capacity_ of data_) and the
  list of live element values in slots [0, size_); size_ equals the length of
  that list, since the partition invariant ties the two in the source;
- operations that in C++ mutate this and possibly a second object are
  modelled as functions returning the new values of every object touched;
- relocation loops (uninitialized_move_n / uninitialized_copy_n) are also
  instrumented as lists of per-element operations so that statements about
  which element operations run (move versus copy, or none) can be made.
-/

namespace AdvancedVector

/-- Model of RawMemory from vector.h: a buffer pointer (none models nullptr)
and a capacity counter. -/
structure RawMemory where
  buffer : Option Nat
  capacity : Nat
deriving DecidableEq

/-- Model of the default constructor RawMemory(): buffer_ = nullptr,
capacity_ = 0. -/
def RawMemory.empty : RawMemory := { buffer := none, capacity := 0 }

/-- Model of RawMemory(RawMemory other) for rvalue other, vector.h lines
25-28. The body assigns buffer_ and capacity_ from other through std::move;
for a raw pointer and a size_t, std::move degenerates to a plain copy, so
other keeps its buffer pointer and capacity. The result is the pair
(newly constructed object, state of other after the call). -/
def RawMemory.moveCtor (other : RawMemory) : RawMemory × RawMemory :=
  ({ buffer := other.buffer, capacity := other.capacity }, other)

/-- Model of RawMemory operator= for rvalue rhs, vector.h lines 29-33. As in
the move constructor, the fields of rhs are copied and rhs is not reset. The
result is the pair (new state of the left side, state of rhs after the call). -/
def RawMemory.moveAssign (lhs rhs : RawMemory) : RawMemory × RawMemory :=
  ({ buffer := rhs.buffer, capacity := rhs.capacity }, rhs)

/-- Model of Vector from vector.h: the capacity of data_ together with the
list of live element values stored in slots [0, size_). -/
structure Vector (T : Type) where
  cap : Nat
  elems : List T
deriving DecidableEq

variable {T : Type}

/-- Model of Vector::Size: size_ is the number of live elements. -/
def Vector.size (v : Vector T) : Nat := v.elems.length

@[simp] theorem Vector.size_eq (v : Vector T) : v.size = v.elems.length := rfl

/-- Representation invariant of Vector: the live element count never exceeds
the capacity of the owned block. -/
def Vector.Inv (v : Vector T) : Prop := v.size ≤ v.cap

instance (v : Vector T) : Decidable v.Inv :=
  inferInstanceAs (Decidable (v.size ≤ v.cap))

/-- Model of the growth expression (size_ == 0) ? 1 : (size_ * 2) used by
PushBack, EmplaceBack and Emplace. -/
def growCap (n : Nat) : Nat := if n = 0 then 1 else n * 2

/-- Model of the default constructor Vector(): empty, capacity 0. -/
def Vector.empty : Vector T := { cap := 0, elems := [] }

/-- Model of Vector(size_t size), vector.h lines 94-98: allocate capacity
size and value-construct size elements. -/
def Vector.ofSize [Inhabited T] (n : Nat) : Vector T :=
  { cap := n, elems := List.replicate n default }

/-- Model of Vector(const Vector other), vector.h lines 100-104: allocate a
block of capacity other.size_ and copy the live elements into it. -/
def Vector.copyCtor (other : Vector T) : Vector T :=
  { cap := other.size, elems := other.elems }

/-- Model of Vector(Vector other) for rvalue other, vector.h lines 106-111:
data_ and size_ are taken from other, then other.data_ is replaced by an
empty RawMemory and other.size_ set to 0. The result is the pair
(newly constructed vector, state of other after the call). -/
def Vector.moveCtor (other : Vector T) : Vector T × Vector T :=
  ({ cap := other.cap, elems := other.elems }, { cap := 0, elems := [] })

/-- Model of Vector operator= for a const reference rhs, vector.h lines
136-157. The flag aliased models the pointer identity test this == addr rhs:
when aliased the whole body is skipped. Otherwise, when rhs has strictly
larger capacity a full copy of rhs is built and swapped in, so the left side
becomes exactly that copy; when the current size exceeds rhs.size_ the prefix
is copy-assigned and the surplus tail destroyed; otherwise the overlapping
prefix is copy-assigned and the remaining elements of rhs are copy-constructed
into uninitialized slots. -/
def Vector.copyAssign (lhs rhs : Vector T) (aliased : Bool) : Vector T :=
  if aliased then lhs
  else if rhs.cap > lhs.cap then
    Vector.copyCtor rhs
  else if rhs.size < lhs.size then
    { cap := lhs.cap, elems := rhs.elems }
  else
    { cap := lhs.cap, elems := rhs.elems.take lhs.size ++ rhs.elems.drop lhs.size }

/-- Model of Vector operator= for rvalue rhs, vector.h lines 158-164: data_
and size_ are taken from rhs, then rhs is reset to the empty state. The
result is the pair (new state of the left side, state of rhs after the call). -/
def Vector.moveAssign (lhs rhs : Vector T) : Vector T × Vector T :=
  ({ cap := rhs.cap, elems := rhs.elems }, { cap := 0, elems := [] })

/-- Model of Vector::Reserve, vector.h lines 166-181: early return when the
requested capacity does not exceed the current one; otherwise a new block of
exactly new_capacity slots is allocated, the live elements are relocated into
it, the old ones destroyed and the new block adopted. -/
def Vector.reserve (v : Vector T) (newCapacity : Nat) : Vector T :=
  if newCapacity ≤ v.cap then v
  else { cap := newCapacity, elems := v.elems }

/-- Model of Vector::Resize, vector.h lines 183-199: no change when new_size
equals size_; when shrinking the tail is destroyed; when growing, Reserve is
called and the new tail value-constructed. -/
def Vector.resize [Inhabited T] (v : Vector T) (newSize : Nat) : Vector T :=
  if newSize = v.size then v
  else if newSize < v.size then
    { cap := v.cap, elems := v.elems.take newSize }
  else
    let w := Vector.reserve v newSize
    { cap := w.cap, elems := w.elems ++ List.replicate (newSize - w.size) default }

/-- Model of Vector::PushBack, vector.h lines 201-240: at full capacity a
block of growCap size_ slots is allocated, the new element constructed into
slot size_ of the new block, the old elements relocated, destroyed, and the
new block adopted; otherwise the element is constructed into slot size_ of
the current block. In both cases size_ is incremented. -/
def Vector.pushBack (v : Vector T) (x : T) : Vector T :=
  if v.size = v.cap then
    { cap := growCap v.size, elems := v.elems ++ [x] }
  else
    { cap := v.cap, elems := v.elems ++ [x] }

/-- Model of Vector::EmplaceBack, vector.h lines 242-264: identical control
flow and state change as PushBack, with the element constructed from the
forwarded arguments; x is the value of the element so constructed. -/
def Vector.emplaceBack (v : Vector T) (x : T) : Vector T :=
  if v.size = v.cap then
    { cap := growCap v.size, elems := v.elems ++ [x] }
  else
    { cap := v.cap, elems := v.elems ++ [x] }

/-- Model of Vector::Emplace, vector.h lines 266-297, at index = pos - begin.
Case index == size_: delegate to EmplaceBack. Case size_ == Capacity: grow,
constructing the new element at index in the new block, then relocating the
elements below index and the elements from index upward around it. Otherwise:
build a temporary, move the last element one slot up, shift [index, size_-1)
one slot rightward and move-assign the temporary into slot index. In every
case the live elements become the old ones with x inserted at index. -/
def Vector.emplace (v : Vector T) (index : Nat) (x : T) : Vector T :=
  if v.size = index then
    Vector.emplaceBack v x
  else if v.size = v.cap then
    { cap := growCap v.size, elems := v.elems.take index ++ x :: v.elems.drop index }
  else
    { cap := v.cap, elems := v.elems.take index ++ x :: v.elems.drop index }

/-- Model of Vector::Insert, vector.h lines 298-303: both overloads delegate
to Emplace. -/
def Vector.insert (v : Vector T) (index : Nat) (x : T) : Vector T :=
  Vector.emplace v index x

/-- Model of Vector::Erase, vector.h lines 305-311, at index = pos - begin:
the elements of [index+1, size_) are move-assigned one slot leftward, the
last slot destroyed and size_ decremented. -/
def Vector.erase (v : Vector T) (index : Nat) : Vector T :=
  { cap := v.cap, elems := v.elems.take index ++ v.elems.drop (index + 1) }

/-- Model of Vector::PopBack, vector.h lines 313-316: destroy the element in
slot size_ - 1 and decrement size_. -/
def Vector.popBack (v : Vector T) : Vector T :=
  { cap := v.cap, elems := v.elems.dropLast }

/-- Model of Vector::Swap, vector.h lines 318-321: data_ and size_ of the two
objects are exchanged. The result is the pair of the two objects after the
call, left side first. -/
def Vector.swap (a b : Vector T) : Vector T × Vector T :=
  ({ cap := b.cap, elems := b.elems }, { cap := a.cap, elems := a.elems })

/-- Model of pushing a whole sequence of values one PushBack at a time. -/
def Vector.pushMany (v : Vector T) (xs : List T) : Vector T :=
  xs.foldl Vector.pushBack v

/-- Per-element operations the code can run on slots during relocation or
construction: copyConstruct i copy-constructs from source element i,
moveConstruct i move-constructs from source element i. -/
inductive ElemOp where
  | copyConstruct (i : Nat)
  | moveConstruct (i : Nat)
deriving DecidableEq

/-- An ElemOp is a destructive move. -/
def ElemOp.isMove : ElemOp → Bool
  | .moveConstruct _ => true
  | .copyConstruct _ => false

/-- An ElemOp is a copy. -/
def ElemOp.isCopy : ElemOp → Bool
  | .moveConstruct _ => false
  | .copyConstruct _ => true

/-- The two compile-time type traits tested by the relocation branches:
std::is_nothrow_move_constructible_v and std::is_copy_constructible_v. -/
structure Traits where
  isNothrowMoveConstructible : Bool
  isCopyConstructible : Bool
deriving DecidableEq

/-- Element operations run by Vector::Reserve, vector.h lines 166-181:
nothing below the current capacity; otherwise one relocation per live
element, by move when the type moves without failing or cannot be copied,
by copy otherwise. -/
def Vector.reserveElemOps (t : Traits) (v : Vector T) (newCapacity : Nat) : List ElemOp :=
  if newCapacity ≤ v.cap then []
  else if t.isNothrowMoveConstructible || !t.isCopyConstructible then
    (List.range v.size).map ElemOp.moveConstruct
  else
    (List.range v.size).map ElemOp.copyConstruct

/-- Element relocation operations run by the full-capacity branch of
Vector::PushBack and Vector::EmplaceBack, vector.h lines 205-210, 225-230 and
247-252: one relocation per live element, branching on the same traits. -/
def Vector.pushBackGrowElemOps (t : Traits) (v : Vector T) : List ElemOp :=
  if t.isNothrowMoveConstructible || !t.isCopyConstructible then
    (List.range v.size).map ElemOp.moveConstruct
  else
    (List.range v.size).map ElemOp.copyConstruct

/-- Element relocation operations run by the full-capacity branch of
Vector::Emplace, vector.h lines 276-283: elements below index, then the
elements from index to size_ - 1, each relocated by move or copy per the
same traits. -/
def Vector.emplaceGrowElemOps (t : Traits) (v : Vector T) (index : Nat) : List ElemOp :=
  if t.isNothrowMoveConstructible || !t.isCopyConstructible then
    (List.range index).map ElemOp.moveConstruct ++
      (List.range (v.size - index)).map (fun k => ElemOp.moveConstruct (index + k))
  else
    (List.range index).map ElemOp.copyConstruct ++
      (List.range (v.size - index)).map (fun k => ElemOp.copyConstruct (index + k))

/-- Element operations run by the move constructor Vector(Vector other) for
rvalue other, vector.h lines 106-111: the body only moves the RawMemory
handle and copies size_, so no per-element operation runs at all. -/
def Vector.moveCtorElemOps (other : Vector T) : List ElemOp := []

/-- The primitive steps of the full-capacity branch of Vector::PushBack and
Vector::EmplaceBack, in program order: allocate the new block, construct the
new element into slot j of the new block, relocate existing element i into
the new block, destroy the old elements, adopt the new block. -/
inductive GrowStep where
  | allocNew (cap : Nat)
  | constructNewAt (j : Nat)
  | relocate (i : Nat)
  | destroyOld
  | adopt
deriving DecidableEq

/-- The sequence of primitive steps the full-capacity branch of
Vector::PushBack and Vector::EmplaceBack performs, in the order the source
performs them, vector.h lines 203-214: allocation of growCap size_ slots,
construction of the new element into slot size_ of the new block, relocation
of the old elements 0..size_-1, destruction of the old elements, adoption of
the new block. -/
def Vector.pushBackGrowTrace (v : Vector T) : List GrowStep :=
  GrowStep.allocNew (growCap v.size) ::
    GrowStep.constructNewAt v.size ::
      ((List.range v.size).map GrowStep.relocate ++ [GrowStep.destroyOld, GrowStep.adopt])

/-- Effect of one primitive grow step on the vector object itself (this).
Allocation, construction of the new element and relocation write only into
the freshly allocated block, so they leave this unchanged; destroying the
old elements empties the live range of the old block; adopting installs the
new block, which holds the old elements of v0 followed by the new element x. -/
def GrowStep.applyToThis (v0 : Vector T) (x : T) : GrowStep → Vector T → Vector T
  | .allocNew _, s => s
  | .constructNewAt _, s => s
  | .relocate _, s => s
  | .destroyOld, s => { cap := s.cap, elems := [] }
  | .adopt, _ => { cap := growCap v0.size, elems := v0.elems ++ [x] }

/-- State of this after executing an initial part of the grow-path steps,
starting from v, where x is the value of the element being appended. -/
def Vector.thisAfterGrowSteps (v : Vector T) (x : T) (steps : List GrowStep) : Vector T :=
  steps.foldl (fun s a => GrowStep.applyToThis v x a s) v

/-- The public mutating and constructing operations of Vector, each carrying
the arguments of the corresponding member of vector.h. The operations that
take another vector carry its value. -/
inductive VecOp (T : Type) where
  | ofSize (n : Nat)
  | copyCtor (other : Vector T)
  | moveCtor (other : Vector T)
  | copyAssign (rhs : Vector T) (aliased : Bool)
  | moveAssign (rhs : Vector T)
  | reserve (n : Nat)
  | resize (n : Nat)
  | pushBack (x : T)
  | emplaceBack (x : T)
  | emplace (i : Nat) (x : T)
  | insert (i : Nat) (x : T)
  | erase (i : Nat)
  | popBack
  | swap (other : Vector T)
deriving DecidableEq

/-- Precondition of an operation on the vector it is applied to, as
documented for the source: valid position for Emplace, Insert and Erase,
nonempty vector for PopBack, nothing otherwise. -/
def VecOp.pre : VecOp T → Vector T → Prop
  | .emplace i _, v => i ≤ v.size
  | .insert i _, v => i ≤ v.size
  | .erase i, v => i < v.size
  | .popBack, v => 0 < v.size
  | _, _ => True

/-- The representation invariant of any other vector the operation carries. -/
def VecOp.argsInv : VecOp T → Prop
  | .copyCtor other => other.Inv
  | .moveCtor other => other.Inv
  | .copyAssign rhs _ => rhs.Inv
  | .moveAssign rhs => rhs.Inv
  | .swap other => other.Inv
  | _ => True

/-- The vectors an operation touches, after the call: the constructed or
assigned vector, together with the source of a move or the argument of a
swap when the source mutates it too. -/
def VecOp.results [Inhabited T] : VecOp T → Vector T → List (Vector T)
  | .ofSize n, _ => [Vector.ofSize n]
  | .copyCtor other, _ => [Vector.copyCtor other]
  | .moveCtor other, _ => [(Vector.moveCtor other).1, (Vector.moveCtor other).2]
  | .copyAssign rhs aliased, v => [Vector.copyAssign v rhs aliased]
  | .moveAssign rhs, v => [(Vector.moveAssign v rhs).1, (Vector.moveAssign v rhs).2]
  | .reserve n, v => [Vector.reserve v n]
  | .resize n, v => [Vector.resize v n]
  | .pushBack x, v => [Vector.pushBack v x]
  | .emplaceBack x, v => [Vector.emplaceBack v x]
  | .emplace i x, v => [Vector.emplace v i x]
  | .insert i x, v => [Vector.insert v i x]
  | .erase i, v => [Vector.erase v i]
  | .popBack, v => [Vector.popBack v]
  | .swap other, v => [(Vector.swap v other).1, (Vector.swap v other).2]

theorem growCap_eq_max (n : Nat) : growCap n = max 1 (2 * n) := by
  unfold growCap
  split
  · omega
  · omega

theorem take_append_drop_insert (i : Nat) (l : List T) (x : T) (h : i ≤ l.length) :
    (l.take i ++ x :: l.drop i).take i ++ (l.take i ++ x :: l.drop i).drop (i + 1) = l := by
  induction i generalizing l with
  | zero => simp
  | succ n ih =>
    cases l with
    | nil => simp at h
    | cons a t =>
      simp only [List.take_succ_cons, List.drop_succ_cons, List.cons_append]
      rw [ih t (Nat.le_of_succ_le_succ h)]

theorem Vector.emplace_elems (v : Vector T) (i : Nat) (x : T) (h : i ≤ v.size) :
    (Vector.emplace v i x).elems = v.elems.take i ++ x :: v.elems.drop i := by
  unfold Vector.emplace Vector.emplaceBack
  rcases eq_or_ne v.size i with hsi | hsi
  · have hlen : v.elems.length = i := by simpa using hsi
    rw [if_pos hsi]
    subst hlen
    split <;> simp
  · rw [if_neg hsi]
    split <;> rfl

theorem Vector.pushMany_spec (xs : List T) :
    ∀ v : Vector T, v.size + xs.length ≤ v.cap →
      Vector.pushMany v xs = { cap := v.cap, elems := v.elems ++ xs } := by
  induction xs with
  | nil =>
    intro v h
    simp [Vector.pushMany]
  | cons x xs ih =>
    intro v h
    have hne : v.size ≠ v.cap := by
      simp only [Vector.size_eq, List.length_cons] at h ⊢
      omega
    have hstep : Vector.pushBack v x = { cap := v.cap, elems := v.elems ++ [x] } := by
      unfold Vector.pushBack
      rw [if_neg hne]
    have hrest := ih { cap := v.cap, elems := v.elems ++ [x] } (by
      simp only [Vector.size_eq, List.length_append, List.length_cons] at h ⊢
      simp
      omega)
    show Vector.pushMany (Vector.pushBack v x) xs = _
    rw [hstep, hrest]
    simp

/-- Claim C1, divergence of the code from it: move-constructing a RawMemory
from a source owning block 1 with capacity 5 does hand the block pointer and
capacity to the destination, but leaves the source still holding the same
block pointer and capacity instead of resetting it to the empty state, so two
RawMemory values reference block 1 after the call; move assignment leaves its
source unchanged in the same way. -/
theorem c1_rawMemory_move_leaves_source_owning :
    (RawMemory.moveCtor { buffer := some 1, capacity := 5 }).1 =
      { buffer := some 1, capacity := 5 } ∧
    (RawMemory.moveCtor { buffer := some 1, capacity := 5 }).2 =
      { buffer := some 1, capacity := 5 } ∧
    (RawMemory.moveCtor { buffer := some 1, capacity := 5 }).2 ≠ RawMemory.empty ∧
    (RawMemory.moveAssign RawMemory.empty { buffer := some 1, capacity := 5 }).2 =
      { buffer := some 1, capacity := 5 } := by
  refine ⟨rfl, rfl, ?_, rfl⟩
  decide

/-- Claim C8: move construction of a Vector takes the storage and size of the
source, runs no per-element operation, and leaves the source empty with size
0 and capacity 0. -/
theorem c8_moveCtor_steals_and_empties (v : Vector T) :
    (Vector.moveCtor v).1.cap = v.cap ∧
    (Vector.moveCtor v).1.elems = v.elems ∧
    (Vector.moveCtor v).2.size = 0 ∧
    (Vector.moveCtor v).2.cap = 0 ∧
    Vector.moveCtorElemOps v = [] :=
  ⟨rfl, rfl, rfl, rfl, rfl⟩

/-- Claim C10: copy-assigning a vector to itself, which the source detects by
the identity test this == addr rhs and then skips, leaves the vector exactly
unchanged. -/
theorem c10_self_copyAssign_unchanged (v : Vector T) :
    Vector.copyAssign v v true = v := rfl

/-- Claim C5: on a vector whose size equals its capacity, PushBack,
EmplaceBack, Emplace and Insert all set the capacity to exactly
max 1 (2 * old capacity). -/
theorem c5_grow_capacity_exact (v : Vector T) (x : T) (i : Nat)
    (h : v.size = v.cap) (hi : i ≤ v.size) :
    (Vector.pushBack v x).cap = max 1 (2 * v.cap) ∧
    (Vector.emplaceBack v x).cap = max 1 (2 * v.cap) ∧
    (Vector.emplace v i x).cap = max 1 (2 * v.cap) ∧
    (Vector.insert v i x).cap = max 1 (2 * v.cap) := by
  have hp : (Vector.pushBack v x).cap = max 1 (2 * v.cap) := by
    unfold Vector.pushBack
    rw [if_pos h, growCap_eq_max, h]
  have he : (Vector.emplaceBack v x).cap = max 1 (2 * v.cap) := by
    unfold Vector.emplaceBack
    rw [if_pos h, growCap_eq_max, h]
  have hm : (Vector.emplace v i x).cap = max 1 (2 * v.cap) := by
    unfold Vector.emplace
    rcases eq_or_ne v.size i with hsi | hsi
    · rw [if_pos hsi]
      exact he
    · rw [if_neg hsi, if_pos h, growCap_eq_max, h]
  exact ⟨hp, he, hm, hm⟩

/-- Witness for c5_grow_capacity_exact at a concrete full vector. -/
theorem c5_grow_capacity_exact_witness :
    (⟨1, [5]⟩ : Vector Nat).size = (⟨1, [5]⟩ : Vector Nat).cap ∧
    (0 ≤ (⟨1, [5]⟩ : Vector Nat).size) ∧
    ((Vector.pushBack (⟨1, [5]⟩ : Vector Nat) 7).cap = max 1 (2 * (⟨1, [5]⟩ : Vector Nat).cap) ∧
     (Vector.emplaceBack (⟨1, [5]⟩ : Vector Nat) 7).cap = max 1 (2 * (⟨1, [5]⟩ : Vector Nat).cap) ∧
     (Vector.emplace (⟨1, [5]⟩ : Vector Nat) 0 7).cap = max 1 (2 * (⟨1, [5]⟩ : Vector Nat).cap) ∧
     (Vector.insert (⟨1, [5]⟩ : Vector Nat) 0 7).cap = max 1 (2 * (⟨1, [5]⟩ : Vector Nat).cap)) :=
  ⟨rfl, by decide, c5_grow_capacity_exact ⟨1, [5]⟩ 7 0 rfl (by decide)⟩

/-- Claim C7: inserting a value at a valid index i and then erasing at index
i restores the previous live contents, both the element sequence and the
size. -/
theorem c7_insert_then_erase (v : Vector T) (i : Nat) (x : T) (h : i ≤ v.size) :
    (Vector.erase (Vector.insert v i x) i).elems = v.elems ∧
    (Vector.erase (Vector.insert v i x) i).size = v.size := by
  have he : (Vector.insert v i x).elems = v.elems.take i ++ x :: v.elems.drop i :=
    Vector.emplace_elems v i x h
  have h2 : (Vector.erase (Vector.insert v i x) i).elems = v.elems := by
    show (Vector.insert v i x).elems.take i ++ (Vector.insert v i x).elems.drop (i + 1) = v.elems
    rw [he]
    exact take_append_drop_insert i v.elems x (by simpa using h)
  exact ⟨h2, by simp [Vector.size_eq, h2]⟩

/-- Witness for c7_insert_then_erase: inserting 5 at index 1 of the contents
[1, 2] and erasing at index 1 restores [1, 2]. -/
theorem c7_insert_then_erase_witness :
    1 ≤ (⟨2, [1, 2]⟩ : Vector Nat).size ∧
    ((Vector.erase (Vector.insert (⟨2, [1, 2]⟩ : Vector Nat) 1 5) 1).elems = [1, 2] ∧
     (Vector.erase (Vector.insert (⟨2, [1, 2]⟩ : Vector Nat) 1 5) 1).size = (⟨2, [1, 2]⟩ : Vector Nat).size) :=
  ⟨by decide, c7_insert_then_erase ⟨2, [1, 2]⟩ 1 5 (by decide)⟩

/-- Claim C9: Reserve is the identity when the requested capacity does not
exceed the current one; otherwise it sets the capacity to exactly the
requested value and keeps the elements; and after Reserve n, pushing any
sequence of values that keeps the total element count at most n never changes
the capacity. -/
theorem c9_reserve_exact_and_stable (v : Vector T) (n : Nat) (xs : List T) :
    (n ≤ v.cap → Vector.reserve v n = v) ∧
    (v.cap < n → (Vector.reserve v n).cap = n ∧ (Vector.reserve v n).elems = v.elems) ∧
    (v.size + xs.length ≤ n →
      (Vector.pushMany (Vector.reserve v n) xs).cap = (Vector.reserve v n).cap) := by
  refine ⟨fun hle => by simp [Vector.reserve, if_pos hle],
    fun hlt => by simp [Vector.reserve, if_neg (Nat.not_le.mpr hlt)], fun h => ?_⟩
  have hw : (Vector.reserve v n).size = v.size ∧ n ≤ (Vector.reserve v n).cap := by
    unfold Vector.reserve
    split
    · exact ⟨rfl, by omega⟩
    · exact ⟨rfl, Nat.le_refl n⟩
  obtain ⟨hw1, hw2⟩ := hw
  rw [Vector.pushMany_spec xs _ (by omega)]

/-- Witness for c9_reserve_exact_and_stable: reserving 1 slot on a vector of
two elements with capacity 2 is the identity, reserving 3 slots on a vector
of one element sets the capacity to exactly 3 keeping the elements, and then
pushing two values leaves the capacity at 3. -/
theorem c9_reserve_exact_and_stable_witness :
    Vector.reserve (⟨2, [4, 5]⟩ : Vector Nat) 1 = ⟨2, [4, 5]⟩ ∧
    ((⟨1, [4]⟩ : Vector Nat).cap < 3 →
       (Vector.reserve (⟨1, [4]⟩ : Vector Nat) 3).cap = 3 ∧
       (Vector.reserve (⟨1, [4]⟩ : Vector Nat) 3).elems = (⟨1, [4]⟩ : Vector Nat).elems) ∧
    (Vector.pushMany (Vector.reserve (⟨1, [4]⟩ : Vector Nat) 3) [7, 8]).cap =
      (Vector.reserve (⟨1, [4]⟩ : Vector Nat) 3).cap :=
  ⟨(c9_reserve_exact_and_stable ⟨2, [4, 5]⟩ 1 []).1 (by decide),
   (c9_reserve_exact_and_stable ⟨1, [4]⟩ 3 [7, 8]).2.1,
   (c9_reserve_exact_and_stable ⟨1, [4]⟩ 3 [7, 8]).2.2 (by decide)⟩

/-- Claim C6: whenever Reserve or a growth-triggered PushBack, EmplaceBack or
Emplace relocates live elements, every relocation is a destructive move and
none is a copy when the element type moves without failing or cannot be
copied at all, and every relocation is a copy otherwise. -/
theorem c6_relocation_policy (t : Traits) (v : Vector T) (n index : Nat) :
    ((t.isNothrowMoveConstructible || !t.isCopyConstructible) = true →
      ((Vector.reserveElemOps t v n).all ElemOp.isMove = true ∧
       (Vector.pushBackGrowElemOps t v).all ElemOp.isMove = true ∧
       (Vector.emplaceGrowElemOps t v index).all ElemOp.isMove = true)) ∧
    ((t.isNothrowMoveConstructible || !t.isCopyConstructible) = false →
      ((Vector.reserveElemOps t v n).all ElemOp.isCopy = true ∧
       (Vector.pushBackGrowElemOps t v).all ElemOp.isCopy = true ∧
       (Vector.emplaceGrowElemOps t v index).all ElemOp.isCopy = true)) := by
  constructor
  · intro hcond
    refine ⟨?_, ?_, ?_⟩
    · unfold Vector.reserveElemOps
      rw [if_pos hcond]
      split
      · rfl
      · simp [List.all_eq_true, ElemOp.isMove]
    · unfold Vector.pushBackGrowElemOps
      rw [if_pos hcond]
      simp [List.all_eq_true, ElemOp.isMove]
    · unfold Vector.emplaceGrowElemOps
      rw [if_pos hcond]
      simp [List.all_eq_true, ElemOp.isMove]
  · intro hcond
    have hcond2 : ¬((t.isNothrowMoveConstructible || !t.isCopyConstructible) = true) := by
      simp [hcond]
    refine ⟨?_, ?_, ?_⟩
    · unfold Vector.reserveElemOps
      rw [if_neg hcond2]
      split
      · rfl
      · simp [List.all_eq_true, ElemOp.isCopy]
    · unfold Vector.pushBackGrowElemOps
      rw [if_neg hcond2]
      simp [List.all_eq_true, ElemOp.isCopy]
    · unfold Vector.emplaceGrowElemOps
      rw [if_neg hcond2]
      simp [List.all_eq_true, ElemOp.isCopy]

/-- Witness for c6_relocation_policy: with a nothrow-movable type every
relocation of Reserve is a move, and with a throwing-move copyable type every
relocation is a copy. -/
theorem c6_relocation_policy_witness :
    (Vector.reserveElemOps ⟨true, true⟩ (⟨1, [5]⟩ : Vector Nat) 3).all ElemOp.isMove = true ∧
    (Vector.reserveElemOps ⟨false, true⟩ (⟨1, [5]⟩ : Vector Nat) 3).all ElemOp.isCopy = true :=
  ⟨((c6_relocation_policy ⟨true, true⟩ ⟨1, [5]⟩ 3 0).1 (by decide)).1,
   ((c6_relocation_policy ⟨false, true⟩ ⟨1, [5]⟩ 3 0).2 (by decide)).1⟩

/-- Claim C4: in the full-capacity branch of PushBack and EmplaceBack, the
new element is constructed into slot size of the new block before any
existing element is relocated; the only step preceding that construction is
the allocation of the new block, which leaves the vector itself exactly
unchanged, so a failure of the construction of the new element leaves the
vector with its original size, capacity and elements; every existing element
is relocated only afterwards, and on success the vector ends with the old
elements followed by the new one, at capacity growCap of the old capacity. -/
theorem c4_grow_constructs_new_first (v : Vector T) (x : T) (h : v.size = v.cap) :
    ∃ pre post,
      Vector.pushBackGrowTrace v = pre ++ GrowStep.constructNewAt v.size :: post ∧
      (∀ a ∈ pre, ∀ i, a ≠ GrowStep.relocate i) ∧
      Vector.thisAfterGrowSteps v x pre = v ∧
      (∀ i, i < v.size → GrowStep.relocate i ∈ post) ∧
      (Vector.pushBack v x).cap = growCap v.cap ∧
      (Vector.pushBack v x).elems = v.elems ++ [x] := by
  refine ⟨[GrowStep.allocNew (growCap v.size)],
    (List.range v.size).map GrowStep.relocate ++ [GrowStep.destroyOld, GrowStep.adopt],
    rfl, ?_, rfl, ?_, ?_, ?_⟩
  · intro a ha i
    simp only [List.mem_singleton] at ha
    subst ha
    intro hc
    exact GrowStep.noConfusion hc
  · intro i hi
    simp only [List.mem_append, List.mem_map, List.mem_range]
    exact Or.inl ⟨i, hi, rfl⟩
  · unfold Vector.pushBack
    rw [if_pos h, h]
  · unfold Vector.pushBack
    rw [if_pos h]

/-- Witness for c4_grow_constructs_new_first on the full one-element vector
with contents [3], appending 7. -/
theorem c4_grow_constructs_new_first_witness :
    (⟨1, [3]⟩ : Vector Nat).size = (⟨1, [3]⟩ : Vector Nat).cap ∧
    (∃ pre post,
      Vector.pushBackGrowTrace (⟨1, [3]⟩ : Vector Nat) =
        pre ++ GrowStep.constructNewAt (⟨1, [3]⟩ : Vector Nat).size :: post ∧
      (∀ a ∈ pre, ∀ i, a ≠ GrowStep.relocate i) ∧
      Vector.thisAfterGrowSteps (⟨1, [3]⟩ : Vector Nat) 7 pre = ⟨1, [3]⟩ ∧
      (∀ i, i < (⟨1, [3]⟩ : Vector Nat).size → GrowStep.relocate i ∈ post) ∧
      (Vector.pushBack (⟨1, [3]⟩ : Vector Nat) 7).cap = growCap (⟨1, [3]⟩ : Vector Nat).cap ∧
      (Vector.pushBack (⟨1, [3]⟩ : Vector Nat) 7).elems = (⟨1, [3]⟩ : Vector Nat).elems ++ [7]) :=
  ⟨rfl, c4_grow_constructs_new_first ⟨1, [3]⟩ 7 rfl⟩

/-- Claim C3 counterexample: copy-assigning from a distinct vector of
capacity 3 holding one element into a vector of capacity 2 takes the
reallocation branch, which builds a copy of the right side with capacity
equal to its size 1 and swaps it in, so the capacity of the left side
decreases from 2 to 1 even though both vectors satisfy the representation
invariant. -/
theorem c3_copyAssign_capacity_decreases :
    (⟨2, []⟩ : Vector Nat).Inv ∧ (⟨3, [0]⟩ : Vector Nat).Inv ∧
    (Vector.copyAssign (⟨2, []⟩ : Vector Nat) ⟨3, [0]⟩ false).cap = 1 ∧
    (Vector.copyAssign (⟨2, []⟩ : Vector Nat) ⟨3, [0]⟩ false).cap <
      (⟨2, []⟩ : Vector Nat).cap :=
  ⟨by decide, by decide, rfl, by decide⟩

/-- Claim C3 as amended: among the public operations other than Swap, move
construction, move assignment and copy assignment, none decreases the
capacity; Reserve sets it to the maximum of the old capacity and the request,
Resize changes it only to the requested value through its Reserve call,
PushBack, EmplaceBack, Emplace and Insert change it only by the
doubling-on-growth rule when size equals capacity, and Erase and PopBack
never change it. -/
theorem c3_capacity_monotone_amended [Inhabited T] (v : Vector T) (n i : Nat) (x : T)
    (hi : i ≤ v.size) :
    (Vector.reserve v n).cap = max v.cap n ∧
    v.cap ≤ (Vector.resize v n).cap ∧
    ((Vector.resize v n).cap = v.cap ∨ (Vector.resize v n).cap = n) ∧
    v.cap ≤ (Vector.pushBack v x).cap ∧
    ((Vector.pushBack v x).cap = v.cap ∨
      (v.size = v.cap ∧ (Vector.pushBack v x).cap = max 1 (2 * v.cap))) ∧
    v.cap ≤ (Vector.emplaceBack v x).cap ∧
    v.cap ≤ (Vector.emplace v i x).cap ∧
    ((Vector.emplace v i x).cap = v.cap ∨
      (v.size = v.cap ∧ (Vector.emplace v i x).cap = max 1 (2 * v.cap))) ∧
    v.cap ≤ (Vector.insert v i x).cap ∧
    (Vector.erase v i).cap = v.cap ∧
    (Vector.popBack v).cap = v.cap := by
  have hres : (Vector.reserve v n).cap = max v.cap n := by
    unfold Vector.reserve
    split
    · omega
    · show n = max v.cap n
      omega
  have hrs : (Vector.resize v n).cap = v.cap ∨ (Vector.resize v n).cap = n := by
    unfold Vector.resize
    split
    · left; rfl
    · split
      · left; rfl
      · show (Vector.reserve v n).cap = v.cap ∨ (Vector.reserve v n).cap = n
        rw [hres]
        omega
  have hpb : (Vector.pushBack v x).cap = v.cap ∨
      (v.size = v.cap ∧ (Vector.pushBack v x).cap = max 1 (2 * v.cap)) := by
    unfold Vector.pushBack
    split
    · right
      refine ⟨‹v.size = v.cap›, ?_⟩
      show growCap v.size = max 1 (2 * v.cap)
      rw [growCap_eq_max, ‹v.size = v.cap›]
    · left; rfl
  have heb : (Vector.emplaceBack v x).cap = v.cap ∨
      (v.size = v.cap ∧ (Vector.emplaceBack v x).cap = max 1 (2 * v.cap)) := by
    unfold Vector.emplaceBack
    split
    · right
      refine ⟨‹v.size = v.cap›, ?_⟩
      show growCap v.size = max 1 (2 * v.cap)
      rw [growCap_eq_max, ‹v.size = v.cap›]
    · left; rfl
  have hem : (Vector.emplace v i x).cap = v.cap ∨
      (v.size = v.cap ∧ (Vector.emplace v i x).cap = max 1 (2 * v.cap)) := by
    unfold Vector.emplace
    split
    · exact heb
    · split
      · right
        refine ⟨‹v.size = v.cap›, ?_⟩
        show growCap v.size = max 1 (2 * v.cap)
        rw [growCap_eq_max, ‹v.size = v.cap›]
      · left; rfl
  have hmono : ∀ m : Nat, m = v.cap ∨ (v.size = v.cap ∧ m = max 1 (2 * v.cap)) →
      v.cap ≤ m := by
    intro m hm
    rcases hm with hm | ⟨_, hm⟩ <;> omega
  have hrsmono : v.cap ≤ (Vector.resize v n).cap := by
    unfold Vector.resize
    split
    · exact Nat.le_refl _
    · split
      · exact Nat.le_refl _
      · show v.cap ≤ (Vector.reserve v n).cap
        rw [hres]
        omega
  exact ⟨hres, hrsmono, hrs, hmono _ hpb, hpb, hmono _ heb, hmono _ hem, hem,
    hmono _ hem, rfl, rfl⟩

/-- Witness for c3_capacity_monotone_amended on a concrete vector. -/
theorem c3_capacity_monotone_amended_witness :
    1 ≤ (⟨2, [4]⟩ : Vector Nat).size ∧
    ((Vector.reserve (⟨2, [4]⟩ : Vector Nat) 5).cap = max (⟨2, [4]⟩ : Vector Nat).cap 5 ∧
     (⟨2, [4]⟩ : Vector Nat).cap ≤ (Vector.resize (⟨2, [4]⟩ : Vector Nat) 5).cap ∧
     ((Vector.resize (⟨2, [4]⟩ : Vector Nat) 5).cap = (⟨2, [4]⟩ : Vector Nat).cap ∨
      (Vector.resize (⟨2, [4]⟩ : Vector Nat) 5).cap = 5) ∧
     (⟨2, [4]⟩ : Vector Nat).cap ≤ (Vector.pushBack (⟨2, [4]⟩ : Vector Nat) 7).cap ∧
     ((Vector.pushBack (⟨2, [4]⟩ : Vector Nat) 7).cap = (⟨2, [4]⟩ : Vector Nat).cap ∨
      ((⟨2, [4]⟩ : Vector Nat).size = (⟨2, [4]⟩ : Vector Nat).cap ∧
       (Vector.pushBack (⟨2, [4]⟩ : Vector Nat) 7).cap = max 1 (2 * (⟨2, [4]⟩ : Vector Nat).cap))) ∧
     (⟨2, [4]⟩ : Vector Nat).cap ≤ (Vector.emplaceBack (⟨2, [4]⟩ : Vector Nat) 7).cap ∧
     (⟨2, [4]⟩ : Vector Nat).cap ≤ (Vector.emplace (⟨2, [4]⟩ : Vector Nat) 1 7).cap ∧
     ((Vector.emplace (⟨2, [4]⟩ : Vector Nat) 1 7).cap = (⟨2, [4]⟩ : Vector Nat).cap ∨
      ((⟨2, [4]⟩ : Vector Nat).size = (⟨2, [4]⟩ : Vector Nat).cap ∧
       (Vector.emplace (⟨2, [4]⟩ : Vector Nat) 1 7).cap = max 1 (2 * (⟨2, [4]⟩ : Vector Nat).cap))) ∧
     (⟨2, [4]⟩ : Vector Nat).cap ≤ (Vector.insert (⟨2, [4]⟩ : Vector Nat) 1 7).cap ∧
     (Vector.erase (⟨2, [4]⟩ : Vector Nat) 1).cap = (⟨2, [4]⟩ : Vector Nat).cap ∧
     (Vector.popBack (⟨2, [4]⟩ : Vector Nat)).cap = (⟨2, [4]⟩ : Vector Nat).cap) :=
  ⟨by decide, c3_capacity_monotone_amended ⟨2, [4]⟩ 5 1 7 (by decide)⟩

/-- Claim C2: every public Vector operation, applied under its documented
precondition to vectors satisfying the representation invariant, leaves
every vector it touches satisfying size at most capacity. -/
theorem c2_ops_preserve_invariant [Inhabited T] (op : VecOp T) (v : Vector T)
    (hv : v.Inv) (ha : op.argsInv) (hp : op.pre v) :
    ∀ w ∈ op.results v, w.Inv := by
  simp only [Vector.Inv, Vector.size_eq] at hv
  cases op with
  | ofSize n =>
    intro w hw
    simp only [VecOp.results, List.mem_singleton] at hw
    subst hw
    simp [Vector.ofSize, Vector.Inv]
  | copyCtor other =>
    intro w hw
    simp only [VecOp.results, List.mem_singleton] at hw
    subst hw
    simp [Vector.copyCtor, Vector.Inv]
  | moveCtor other =>
    simp only [VecOp.argsInv, Vector.Inv, Vector.size_eq] at ha
    intro w hw
    simp only [VecOp.results, List.mem_cons, List.mem_singleton, List.not_mem_nil,
      or_false] at hw
    rcases hw with rfl | rfl
    · simpa [Vector.moveCtor, Vector.Inv] using ha
    · simp [Vector.moveCtor, Vector.Inv]
  | copyAssign rhs aliased =>
    simp only [VecOp.argsInv, Vector.Inv, Vector.size_eq] at ha
    intro w hw
    simp only [VecOp.results, List.mem_singleton] at hw
    subst hw
    unfold Vector.copyAssign
    split
    · simpa [Vector.Inv] using hv
    · split
      · simp [Vector.copyCtor, Vector.Inv]
      · split
        · simp only [Vector.Inv, Vector.size_eq]
          simp only [gt_iff_lt, not_lt] at *
          omega
        · simp only [Vector.Inv, Vector.size_eq, List.take_append_drop]
          simp only [gt_iff_lt, not_lt] at *
          omega
  | moveAssign rhs =>
    simp only [VecOp.argsInv, Vector.Inv, Vector.size_eq] at ha
    intro w hw
    simp only [VecOp.results, List.mem_cons, List.mem_singleton, List.not_mem_nil,
      or_false] at hw
    rcases hw with rfl | rfl
    · simpa [Vector.moveAssign, Vector.Inv] using ha
    · simp [Vector.moveAssign, Vector.Inv]
  | reserve n =>
    intro w hw
    simp only [VecOp.results, List.mem_singleton] at hw
    subst hw
    unfold Vector.reserve
    split
    · simpa [Vector.Inv] using hv
    · simp only [Vector.Inv, Vector.size_eq]
      omega
  | resize n =>
    intro w hw
    simp only [VecOp.results, List.mem_singleton] at hw
    subst hw
    unfold Vector.resize Vector.reserve
    split
    · simpa [Vector.Inv] using hv
    · split
      · simp only [Vector.Inv, Vector.size_eq, List.length_take]
        simp only [Vector.size_eq] at *
        omega
      · simp only [Vector.size_eq] at *
        split
        · simp only [Vector.Inv, Vector.size_eq, List.length_append,
            List.length_replicate]
          omega
        · simp only [Vector.Inv, Vector.size_eq, List.length_append,
            List.length_replicate]
          omega
  | pushBack x =>
    intro w hw
    simp only [VecOp.results, List.mem_singleton] at hw
    subst hw
    unfold Vector.pushBack
    split
    · simp only [Vector.Inv, Vector.size_eq, List.length_append, List.length_cons,
        List.length_nil, growCap_eq_max]
      omega
    · simp only [Vector.size_eq] at *
      simp only [Vector.Inv, Vector.size_eq, List.length_append, List.length_cons,
        List.length_nil]
      omega
  | emplaceBack x =>
    intro w hw
    simp only [VecOp.results, List.mem_singleton] at hw
    subst hw
    unfold Vector.emplaceBack
    split
    · simp only [Vector.Inv, Vector.size_eq, List.length_append, List.length_cons,
        List.length_nil, growCap_eq_max]
      omega
    · simp only [Vector.size_eq] at *
      simp only [Vector.Inv, Vector.size_eq, List.length_append, List.length_cons,
        List.length_nil]
      omega
  | emplace i x =>
    simp only [VecOp.pre, Vector.size_eq] at hp
    intro w hw
    simp only [VecOp.results, List.mem_singleton] at hw
    subst hw
    unfold Vector.emplace Vector.emplaceBack
    split
    · split
      · simp only [Vector.Inv, Vector.size_eq, List.length_append, List.length_cons,
          List.length_nil, growCap_eq_max]
        omega
      · simp only [Vector.size_eq] at *
        simp only [Vector.Inv, Vector.size_eq, List.length_append, List.length_cons,
          List.length_nil]
        omega
    · split
      · simp only [Vector.Inv, Vector.size_eq, List.length_append, List.length_cons,
          List.length_take, List.length_drop, growCap_eq_max]
        omega
      · simp only [Vector.size_eq] at *
        simp only [Vector.Inv, Vector.size_eq, List.length_append, List.length_cons,
          List.length_take, List.length_drop]
        omega
  | insert i x =>
    simp only [VecOp.pre, Vector.size_eq] at hp
    intro w hw
    simp only [VecOp.results, List.mem_singleton] at hw
    subst hw
    unfold Vector.insert Vector.emplace Vector.emplaceBack
    split
    · split
      · simp only [Vector.Inv, Vector.size_eq, List.length_append, List.length_cons,
          List.length_nil, growCap_eq_max]
        omega
      · simp only [Vector.size_eq] at *
        simp only [Vector.Inv, Vector.size_eq, List.length_append, List.length_cons,
          List.length_nil]
        omega
    · split
      · simp only [Vector.Inv, Vector.size_eq, List.length_append, List.length_cons,
          List.length_take, List.length_drop, growCap_eq_max]
        omega
      · simp only [Vector.size_eq] at *
        simp only [Vector.Inv, Vector.size_eq, List.length_append, List.length_cons,
          List.length_take, List.length_drop]
        omega
  | erase i =>
    intro w hw
    simp only [VecOp.results, List.mem_singleton] at hw
    subst hw
    simp only [Vector.erase, Vector.Inv, Vector.size_eq, List.length_append,
      List.length_take, List.length_drop]
    omega
  | popBack =>
    intro w hw
    simp only [VecOp.results, List.mem_singleton] at hw
    subst hw
    simp only [Vector.popBack, Vector.Inv, Vector.size_eq, List.length_dropLast]
    omega
  | swap other =>
    simp only [VecOp.argsInv, Vector.Inv, Vector.size_eq] at ha
    intro w hw
    simp only [VecOp.results, List.mem_cons, List.mem_singleton, List.not_mem_nil,
      or_false] at hw
    rcases hw with rfl | rfl
    · simpa [Vector.swap, Vector.Inv] using ha
    · simpa [Vector.swap, Vector.Inv] using hv

/-- Witness for c2_ops_preserve_invariant: PushBack on a full one-element
vector yields a vector satisfying the invariant. -/
theorem c2_ops_preserve_invariant_witness :
    (⟨1, [5]⟩ : Vector Nat).Inv ∧
    (VecOp.pushBack (7 : Nat)).argsInv ∧
    (VecOp.pushBack (7 : Nat)).pre (⟨1, [5]⟩ : Vector Nat) ∧
    (Vector.pushBack (⟨1, [5]⟩ : Vector Nat) 7).Inv :=
  ⟨by decide, trivial, trivial,
    c2_ops_preserve_invariant (VecOp.pushBack 7) ⟨1, [5]⟩ (by decide) trivial trivial
      (Vector.pushBack ⟨1, [5]⟩ 7) (List.Mem.head _)⟩

end AdvancedVector
